import Mathlib

/-!
A verification development for the `isabelle-markup` converter.

The Rust sources are embedded shallowly:

* strings (`String` / `&str`) are modelled as `Str := List Char`;
* `Vec<T>` is modelled as `List T`;
* in-place mutation (`&mut Vec<...>`, `&mut String`) is modelled by returning
  the updated value;
* code that panics is modelled with `Option` (`none` = panic);
* fallible code returning `Result` is modelled with `Except`.

The embedded components are:

* `src/src/ir.rs` — the `TagTree` intermediate representation with the
  `trim_empty`, `merge_tooltips` and `split_lines` passes;
* `src/src/output.rs` — the incremental HTML emitter (`HTMLOutput`) with its
  tooltip state machine;
* `src/yxml/src/lib.rs` — the YXML stream parser.
-/

abbrev Str := List Char

/-- The newline character used by caption merging and line splitting. -/
def nlChar : Char := '\n'

/-! ## `src/src/ir.rs`: the tree-based intermediate representation -/

/-- `enum Tag` of `ir.rs`: a visual span class or a tooltip caption. -/
inductive Tag where
  | SpanClass (s : Str)
  | Tooltip (s : Str)

/-- `enum TagTree<'a>` of `ir.rs`: a markup tree node. -/
inductive TagTree where
  | Tag (tag : Tag) (children : List TagTree)
  | Text (s : Str)

/-- `TagTree::is_empty`. -/
def TagTree.is_empty : TagTree → Bool
  | .Tag _ children => children.isEmpty
  | .Text s => s.isEmpty

/-- `trim_empty` of `ir.rs`.  The Rust function first recursively trims the
children of every node in place and then retains the non-empty nodes; here the
two passes over the vector are fused into one list recursion. -/
def trim_empty : List TagTree → List TagTree
  | [] => []
  | TagTree.Tag tag ch :: rest =>
      let ch' := trim_empty ch
      if (TagTree.Tag tag ch').is_empty then trim_empty rest
      else TagTree.Tag tag ch' :: trim_empty rest
  | TagTree.Text s :: rest =>
      if (TagTree.Text s).is_empty then trim_empty rest
      else TagTree.Text s :: trim_empty rest

mutual

/-- `merge_tooltips` of `ir.rs`.  The argument `parent` models
`Option<&mut String>`; the returned `Option Str` is the final value of that
mutable caption, and the returned `Bool` is the Rust return value ("subtree
contains tooltips after merging").  The first three cases are the
single-child-chain block guarded by `tree.len() == 1`; the remaining cases
fall through to the `VecGrowScan` loop, embedded as `merge_scan`. -/
def merge_tooltips (tree : List TagTree) (parent : Option Str) :
    List TagTree × Option Str × Bool :=
  match parent, tree with
  | some p, [TagTree.Tag (Tag.SpanClass c) ch] =>
      let r := merge_tooltips ch (some p)
      ([TagTree.Tag (Tag.SpanClass c) r.1], r.2.1, r.2.2)
  | some p, [TagTree.Tag (Tag.Tooltip s) ch] =>
      merge_tooltips ch (some (p ++ nlChar :: s))
  | some p, [TagTree.Text s] => ([TagTree.Text s], some p, false)
  | some p, [] =>
      let r := merge_scan []
      (r.1, some p, r.2)
  | some p, t1 :: t2 :: ts =>
      let r := merge_scan (t1 :: t2 :: ts)
      (r.1, some p, r.2)
  | none, t =>
      let r := merge_scan t
      (r.1, none, r.2)
termination_by (sizeOf tree, 1)

/-- The `VecGrowScan` loop of `merge_tooltips`: each `Tag` node's children are
merged (a `Tooltip` node passes its own caption down as the parent
accumulator); a `Tooltip` node whose subtree still contains tooltips is
replaced by its children (`replace_with_many_with`), otherwise it is kept and
counts as a retained tooltip. -/
def merge_scan : List TagTree → List TagTree × Bool
  | [] => ([], false)
  | TagTree.Text s :: rest =>
      let r := merge_scan rest
      (TagTree.Text s :: r.1, r.2)
  | TagTree.Tag (Tag.SpanClass c) ch :: rest =>
      let rc := merge_tooltips ch none
      let r := merge_scan rest
      (TagTree.Tag (Tag.SpanClass c) rc.1 :: r.1, rc.2.2 || r.2)
  | TagTree.Tag (Tag.Tooltip s) ch :: rest =>
      let rc := merge_tooltips ch (some s)
      let r := merge_scan rest
      if rc.2.2 then (rc.1 ++ r.1, true)
      else (TagTree.Tag (Tag.Tooltip (rc.2.1.getD s)) rc.1 :: r.1, true)
termination_by tree => (sizeOf tree, 0)

end

/-- Rust `str::split(c)`: splits a string at every occurrence of `c`; the
separators are dropped and empty pieces are kept (splitting the empty string
yields one empty piece). -/
def splitOnChar (c : Char) : Str → List Str
  | [] => [[]]
  | a :: rest =>
      if a = c then [] :: splitOnChar c rest
      else
        match splitOnChar c rest with
        | [] => [[a]]
        | l :: ls => (a :: l) :: ls

/-- The body of the `for (i, child_line)` loop of `split_lines` in `ir.rs`:
each produced line of a child is pushed onto the current partial line, and
every line except the last flushes the partial line onto the output. -/
def push_lines (acc : List (List TagTree) × List TagTree) :
    List TagTree → List (List TagTree) × List TagTree
  | [] => acc
  | [l] => (acc.1, acc.2 ++ [l])
  | l1 :: l2 :: ls => push_lines (acc.1 ++ [acc.2 ++ [l1]], []) (l2 :: ls)

mutual

/-- `TagTree::split_lines`: a text leaf splits at newlines; a tag node is
replicated once per line produced by its children. -/
def TagTree.split_lines : TagTree → List TagTree
  | .Text s => (splitOnChar nlChar s).map TagTree.Text
  | .Tag tag ch => (split_lines ch).map (fun line => TagTree.Tag tag line)
termination_by t => (sizeOf t, 0)

/-- The `for child in input` loop of `split_lines` in `ir.rs`, with the
`(lines, new_children)` loop state passed explicitly. -/
def split_lines_go (acc : List (List TagTree) × List TagTree) :
    List TagTree → List (List TagTree) × List TagTree
  | [] => acc
  | child :: rest => split_lines_go (push_lines acc child.split_lines) rest
termination_by input => (sizeOf input, 1)

/-- `split_lines` of `ir.rs`: splits a forest into one forest per line,
pushing the final (possibly empty) partial line at the end. -/
def split_lines (input : List TagTree) : List (List TagTree) :=
  let acc := split_lines_go ([], []) input
  acc.1 ++ [acc.2]
termination_by (sizeOf input, 2)

end

/-! ## Derived notions used to state the claims -/

/-- The text content of a forest: the concatenation, in order, of all `Text`
leaves, with all markup stripped. -/
def flattenF : List TagTree → Str
  | [] => []
  | TagTree.Tag _ ch :: rest => flattenF ch ++ flattenF rest
  | TagTree.Text s :: rest => s ++ flattenF rest

/-- The text content of one node. -/
def flatten1 : TagTree → Str
  | TagTree.Tag _ ch => flattenF ch
  | TagTree.Text s => s

/-- Does the forest contain a `Tooltip` node anywhere? -/
def anyTooltip : List TagTree → Bool
  | [] => false
  | TagTree.Tag (Tag.Tooltip _) _ :: _ => true
  | TagTree.Tag (Tag.SpanClass _) ch :: rest => anyTooltip ch || anyTooltip rest
  | TagTree.Text _ :: rest => anyTooltip rest

/-- Fully pruned: no `Tag` node with an empty children vector and no
zero-length `Text` leaf, at any depth. -/
def trimmed : List TagTree → Bool
  | [] => true
  | TagTree.Tag _ ch :: rest => !ch.isEmpty && trimmed ch && trimmed rest
  | TagTree.Text s :: rest => !s.isEmpty && trimmed rest

/-- Tooltip-canonical: every `Tooltip` node's subtree is tooltip-free. -/
def goodT : List TagTree → Bool
  | [] => true
  | TagTree.Tag (Tag.Tooltip _) ch :: rest => !anyTooltip ch && goodT rest
  | TagTree.Tag (Tag.SpanClass _) ch :: rest => goodT ch && goodT rest
  | TagTree.Text _ :: rest => goodT rest

/-- No `Text` leaf of the forest contains a newline character. -/
def nlFree : List TagTree → Bool
  | [] => true
  | TagTree.Tag _ ch :: rest => nlFree ch && nlFree rest
  | TagTree.Text s :: rest => !s.contains nlChar && nlFree rest

/-! ## `src/src/output.rs`: the incremental HTML emitter -/

/-- Converts a Lean string literal to the `Str` model. -/
def lit (s : String) : Str := s.toList

/-- `enum TooltipState` of `output.rs`. -/
inductive TooltipState where
  | None
  | Pending (s : Str)
  | Emitted
deriving DecidableEq

/-- `enum Tag` of `output.rs` (named apart from the IR `Tag`). -/
inductive OutTag where
  | SpanClass (cls : Str)
deriving DecidableEq

/-- `Tag::open` of `output.rs`: the bytes written when opening the tag. -/
def OutTag.openTag : OutTag → Str
  | .SpanClass cls => lit "<span class=\"" ++ cls ++ lit "\">"

/-- `Tag::close` of `output.rs`: the bytes written when closing the tag. -/
def OutTag.closeTag : OutTag → Str
  | .SpanClass _ => lit "</span>"

/-- `struct HTMLOutput` of `output.rs`; the `writer` field is modelled by the
`out` byte sequence written so far. -/
structure HTMLOutput where
  out : Str
  tag_stack : List OutTag
  tooltip : TooltipState
  tooltip_depth : Nat
  root : Bool
deriving DecidableEq

/-- `HTMLOutput::into_buffer`: a fresh non-root emitter over an empty buffer. -/
def into_buffer : HTMLOutput :=
  { out := [], tag_stack := [], tooltip := TooltipState.None,
    tooltip_depth := 0, root := false }

/-- `HTMLOutput::open_tag`: writes the opening markup and pushes the tag. -/
def open_tag (st : HTMLOutput) (tag : OutTag) : HTMLOutput :=
  { st with out := st.out ++ tag.openTag, tag_stack := st.tag_stack ++ [tag] }

/-- `HTMLOutput::close_tag`: pops the stack (panic on underflow) and writes
the closing markup. -/
def close_tag (st : HTMLOutput) : Option HTMLOutput :=
  match st.tag_stack.getLast? with
  | Option.none => Option.none
  | some tag =>
      some { st with out := st.out ++ tag.closeTag,
                     tag_stack := st.tag_stack.dropLast }

/-- `HTMLOutput::tooltip_html`: enters a tooltip scope.  A `Pending` buffer
accumulates the new caption newline-separated; an `Emitted` buffer panics
("Nested tooltip parents"), modelled as `none`. -/
def tooltip_html (st : HTMLOutput) (s : Str) : Option HTMLOutput :=
  match st.tooltip with
  | TooltipState.None =>
      some { st with tooltip_depth := st.tooltip_depth + 1,
                     tooltip := TooltipState.Pending s }
  | TooltipState.Pending buf =>
      some { st with tooltip_depth := st.tooltip_depth + 1,
                     tooltip := TooltipState.Pending (buf ++ nlChar :: s) }
  | TooltipState.Emitted => Option.none

/-- `HTMLOutput::tooltip_end`: asserts that the buffer is `Emitted` and the
depth positive (otherwise panic), then leaves the scope, resetting the buffer
at depth zero. -/
def tooltip_end (st : HTMLOutput) : Option HTMLOutput :=
  if st.tooltip ≠ TooltipState.Emitted then Option.none
  else if st.tooltip_depth = 0 then Option.none
  else
    let d := st.tooltip_depth - 1
    some { st with tooltip_depth := d,
                   tooltip := if d = 0 then TooltipState.None else st.tooltip }

/-- `HTMLOutput::write_text_oneline`.  `render s withTooltips` models
`symbols::render_symbols(s, writer, with_tooltips)`, the external
escape/symbol substitution pass, as the bytes it writes.  A `Pending` caption
is shipped out as a hover container wrapping the rendered fragment with the
caption as trailing payload; writing while `Emitted` panics ("Tooltip parent
extended after shipout"), modelled as `none`. -/
def write_text_oneline (render : Str → Bool → Str) (st : HTMLOutput) (s : Str) :
    Option HTMLOutput :=
  match st.tooltip with
  | TooltipState.None => some { st with out := st.out ++ render s true }
  | TooltipState.Pending tooltip =>
      some { st with
        out := st.out ++ lit "<span class=\"has-tooltip\">" ++ render s false
          ++ lit "<span class=\"tooltip\">" ++ tooltip ++ lit "</span></span>",
        tooltip := TooltipState.Emitted }
  | TooltipState.Emitted => Option.none

/-- `HTMLOutput::handle_newline`: panics inside a tooltip scope; a root
emitter closes all open tags, switches `<code>` containers and reopens them;
a nested emitter writes a literal newline. -/
def handle_newline (st : HTMLOutput) : Option HTMLOutput :=
  if st.tooltip ≠ TooltipState.None then Option.none
  else if st.root then
    let closed := st.tag_stack.reverse.foldl (fun o t => o ++ t.closeTag) st.out
    let reopened := st.tag_stack.foldl (fun o t => o ++ t.openTag)
      (closed ++ lit "</code><code>")
    some { st with out := reopened }
  else some { st with out := st.out ++ [nlChar] }

/-- `HTMLOutput::write_text`: splits the fragment at newlines and writes the
pieces with `handle_newline` in between. -/
def write_text (render : Str → Bool → Str) (st : HTMLOutput) (s : Str) :
    Option HTMLOutput :=
  match splitOnChar nlChar s with
  | [] => Option.none
  | first :: rest =>
      (write_text_oneline render st first).bind (fun st0 =>
        rest.foldlM (fun acc line =>
          (handle_newline acc).bind
            (fun a2 => write_text_oneline render a2 line)) st0)

/-- The primitive operations of the incremental emitter (spec §4.3). -/
inductive EmitOp where
  | openStyle (cls : Str)
  | closeStyle
  | openTooltip (s : Str)
  | closeTooltip
  | writeText (s : Str)

/-- Runs one emitter operation. -/
def runOp (render : Str → Bool → Str) (st : HTMLOutput) :
    EmitOp → Option HTMLOutput
  | EmitOp.openStyle cls => some (open_tag st (OutTag.SpanClass cls))
  | EmitOp.closeStyle => close_tag st
  | EmitOp.openTooltip s => tooltip_html st s
  | EmitOp.closeTooltip => tooltip_end st
  | EmitOp.writeText s => write_text render st s

/-- Runs a sequence of emitter operations, failing if any panics. -/
def runOps (render : Str → Bool → Str) (st : HTMLOutput) :
    List EmitOp → Option HTMLOutput
  | [] => some st
  | op :: ops => (runOp render st op).bind (fun st2 => runOps render st2 ops)

/-! ## `src/yxml/src/lib.rs`: the YXML stream parser -/

/-- `enum Node` of `yxml`.  The `HashMap` of attributes is modelled as an
insertion-ordered association list. -/
inductive Node where
  | Text (s : Str)
  | Tag (name : Str) (attrs : List (Str × Str)) (children : List Node)

/-- `enum ParseError` of `yxml`. -/
inductive ParseError where
  | UnclosedTag (tag : Str)
  | NoClosingX
  | UnexpectedContentBeforeAttributes
  | MissingName
  | MalformedAttribute
  | UnmatchedClosingTag
deriving DecidableEq

/-- `const X: char = '\x05'`, the marker delimiter. -/
def X : Char := '\x05'

/-- `const Y: char = '\x06'`, the name/attribute separator. -/
def Y : Char := '\x06'

/-- Rust `str::find(c)`: index of the first occurrence of a character. -/
def findChar (c : Char) : Str → Option Nat
  | [] => Option.none
  | a :: rest =>
      if a = c then some 0 else (findChar c rest).map (· + 1)

/-- The attribute-collection loop of `Node::from_str`: each attribute string
is split at its first `=` (missing `=` is `MalformedAttribute`). -/
def parse_attrs : List Str → Except ParseError (List (Str × Str))
  | [] => Except.ok []
  | attr :: rest =>
      match findChar '=' attr with
      | Option.none => Except.error ParseError.MalformedAttribute
      | some offset =>
          match parse_attrs rest with
          | Except.error e => Except.error e
          | Except.ok attrs =>
              Except.ok ((attr.take offset, attr.drop (offset + 1)) :: attrs)

mutual

/-- `Node::from_str` of `yxml`.  Returns the parsed node (`none` for a close
marker) and the remaining input; the remaining input is bundled with the
length bound needed for termination of the surrounding loops. -/
def from_str (input : Str) :
    Except ParseError
      (Option Node × { rest : Str // input = [] ∨ rest.length < input.length }) :=
  match hf : findChar X input with
  | some 0 =>
      let tail := input.drop 1
      match findChar X tail with
      | Option.none => Except.error ParseError.NoClosingX
      | some e =>
          let attributes := tail.take e
          let rest := tail.drop (e + 1)
          have hne : input ≠ [] := by
            intro hs; rw [hs] at hf; simp [findChar] at hf
          have hlen : input.length - (e + 1 + 1) < input.length := by
            have : 0 < input.length := List.length_pos.mpr hne
            omega
          have hrest : input = [] ∨ rest.length < input.length := by
            right
            simp only [rest, tail, List.length_drop]
            omega
          if attributes = [Y] then Except.ok (Option.none, ⟨rest, hrest⟩)
          else
            match splitOnChar Y attributes with
            | [] => Except.error ParseError.UnexpectedContentBeforeAttributes
            | first :: parts =>
                if first ≠ [] then
                  Except.error ParseError.UnexpectedContentBeforeAttributes
                else
                  match parts with
                  | [] => Except.error ParseError.MissingName
                  | name :: attrParts =>
                      match parse_attrs attrParts with
                      | Except.error e2 => Except.error e2
                      | Except.ok attrs =>
                          match parse_children name rest with
                          | Except.error e2 => Except.error e2
                          | Except.ok (children, ⟨rest2, h2⟩) =>
                              Except.ok
                                (some (Node.Tag name attrs children),
                                 ⟨rest2, by
                                   right
                                   rcases hrest with h | h
                                   · exact absurd h hne
                                   · omega⟩)
  | some (n + 1) =>
      Except.ok
        (some (Node.Text (input.take (n + 1))),
         ⟨input.drop (n + 1), by
           right
           have hne : input ≠ [] := by
             intro hs; rw [hs] at hf; simp [findChar] at hf
           have : 0 < input.length := List.length_pos.mpr hne
           simp only [List.length_drop]
           omega⟩)
  | Option.none =>
      Except.ok
        (some (Node.Text input),
         ⟨[], by
           cases input with
           | nil => exact Or.inl rfl
           | cons a as => right; simp⟩)
termination_by (input.length, 0)

/-- `parse_children` of `yxml`: collects child nodes until the matching close
marker; running out of input is `UnclosedTag`. -/
def parse_children (tag : Str) (input : Str) :
    Except ParseError (List Node × { rest : Str // rest.length ≤ input.length }) :=
  if hin : input = [] then Except.error (ParseError.UnclosedTag tag)
  else
    match from_str input with
    | Except.error e => Except.error e
    | Except.ok (child?, ⟨rest, hr⟩) =>
        have hlt : rest.length < input.length := hr.resolve_left hin
        match child? with
        | Option.none => Except.ok ([], ⟨rest, Nat.le_of_lt hlt⟩)
        | some child =>
            match parse_children tag rest with
            | Except.error e => Except.error e
            | Except.ok (children, ⟨rest2, h2⟩) =>
                Except.ok (child :: children, ⟨rest2, by omega⟩)
termination_by (input.length, 1)

end

/-- `parse` of `yxml`: parses the whole input into a forest; a close marker
at top level is `UnmatchedClosingTag`. -/
def parse (input : Str) : Except ParseError (List Node) :=
  if hin : input = [] then Except.ok []
  else
    match from_str input with
    | Except.error e => Except.error e
    | Except.ok (child?, ⟨rest, hr⟩) =>
        match child? with
        | Option.none => Except.error ParseError.UnmatchedClosingTag
        | some node =>
            have hlt : rest.length < input.length := hr.resolve_left hin
            match parse rest with
            | Except.error e => Except.error e
            | Except.ok nodes => Except.ok (node :: nodes)
termination_by input.length

/-- Joining a list of strings with a separator; equal to `List.intercalate`
(proved below), stated recursively for ease of induction. -/
def interC {α : Type} (sep : List α) : List (List α) → List α
  | [] => []
  | [x] => x
  | x :: y :: xs => x ++ sep ++ interC sep (y :: xs)

/-! ## Claims about the incremental emitter -/

/-- Claim C10: `tooltip_end` is fatal (a panic, modelled as `none`) exactly
when the tooltip buffer is not `Emitted` (`Shipped`) or no tooltip scope is
open (depth zero): an empty tooltip scope, still `Pending` at close, is an
assertion failure, as is a close with state `None` or depth zero. -/
theorem claim_C10_tooltip_end_fatal (st : HTMLOutput) :
    tooltip_end st = Option.none ↔
      ¬(st.tooltip = TooltipState.Emitted ∧ 0 < st.tooltip_depth) := by
  by_cases h1 : st.tooltip = TooltipState.Emitted <;>
    by_cases h2 : st.tooltip_depth = 0 <;>
      simp [tooltip_end, h1, h2] <;> omega

/-- Claim C3 (counterexample): after the tooltip caption has shipped with the
first fragment, a second write-text in the same scope panics ("Tooltip parent
extended after shipout") instead of writing the fragment unwrapped. -/
theorem claim_C3_counterexample :
    runOps (fun s _ => s) into_buffer
      [EmitOp.openTooltip (lit "A"), EmitOp.writeText (lit "x"),
       EmitOp.writeText (lit "y")] = Option.none := by rfl

/-- Claim C3 (amended): the first write-text while the buffer is `Pending`
wraps the rendered fragment in a hover container with the accumulated caption
as trailing payload and transitions the buffer to `Shipped`; any later
write-text while the buffer is still `Shipped` is fatal (a panic), not an
unwrapped write. -/
theorem claim_C3_write_text_oneline (render : Str → Bool → Str)
    (st : HTMLOutput) (s : Str) :
    (∀ buf, st.tooltip = TooltipState.Pending buf →
      write_text_oneline render st s = some
        { st with
          out := st.out ++ lit "<span class=\"has-tooltip\">" ++ render s false
            ++ lit "<span class=\"tooltip\">" ++ buf ++ lit "</span></span>",
          tooltip := TooltipState.Emitted }) ∧
    (st.tooltip = TooltipState.Emitted →
      write_text_oneline render st s = Option.none) := by
  constructor
  · intro buf h
    simp [write_text_oneline, h]
  · intro h
    simp [write_text_oneline, h]

theorem claim_C3_witness :
    (write_text_oneline (fun s _ => s)
        { out := [], tag_stack := [], tooltip := TooltipState.Pending (lit "A"),
          tooltip_depth := 1, root := false } (lit "x") = some
        { out := [] ++ lit "<span class=\"has-tooltip\">" ++ lit "x"
            ++ lit "<span class=\"tooltip\">" ++ lit "A" ++ lit "</span></span>",
          tag_stack := [], tooltip := TooltipState.Emitted,
          tooltip_depth := 1, root := false }) ∧
    (write_text_oneline (fun s _ => s)
        { out := [], tag_stack := [], tooltip := TooltipState.Emitted,
          tooltip_depth := 1, root := false } (lit "x") = Option.none) :=
  ⟨(claim_C3_write_text_oneline (fun s _ => s) _ (lit "x")).1 (lit "A") rfl,
   (claim_C3_write_text_oneline (fun s _ => s) _ (lit "x")).2 rfl⟩

/-- Claim C6: opening a tooltip while the buffer is `Pending` concatenates
the captions newline-separated; opening one while the buffer is `Shipped`
panics; and the op sequence `[open-tooltip "A", open-tooltip "B", write "x",
close-tooltip, close-tooltip]` succeeds, emitting exactly one wrapped
fragment whose caption is `"A\nB"`. -/
theorem claim_C6_tooltip_html (st : HTMLOutput) (s : Str) :
    (∀ buf, st.tooltip = TooltipState.Pending buf →
      tooltip_html st s = some
        { st with tooltip_depth := st.tooltip_depth + 1,
                  tooltip := TooltipState.Pending (buf ++ nlChar :: s) }) ∧
    (st.tooltip = TooltipState.Emitted → tooltip_html st s = Option.none) ∧
    (∀ render : Str → Bool → Str,
      runOps render into_buffer
        [EmitOp.openTooltip (lit "A"), EmitOp.openTooltip (lit "B"),
         EmitOp.writeText (lit "x"), EmitOp.closeTooltip, EmitOp.closeTooltip]
      = some
        { out := lit "<span class=\"has-tooltip\">" ++ render (lit "x") false
            ++ lit "<span class=\"tooltip\">" ++ lit "A\nB" ++ lit "</span></span>",
          tag_stack := [], tooltip := TooltipState.None,
          tooltip_depth := 0, root := false }) := by
  refine ⟨?_, ?_, ?_⟩
  · intro buf h
    simp [tooltip_html, h]
  · intro h
    simp [tooltip_html, h]
  · intro render
    simp [runOps, runOp, write_text, write_text_oneline, tooltip_html,
      tooltip_end, into_buffer, splitOnChar, lit, nlChar]

theorem claim_C6_witness :
    (tooltip_html
        { out := [], tag_stack := [], tooltip := TooltipState.Pending (lit "A"),
          tooltip_depth := 1, root := false } (lit "B") = some
        { out := [], tag_stack := [],
          tooltip := TooltipState.Pending (lit "A" ++ nlChar :: lit "B"),
          tooltip_depth := 2, root := false }) ∧
    (tooltip_html
        { out := [], tag_stack := [], tooltip := TooltipState.Emitted,
          tooltip_depth := 1, root := false } (lit "B") = Option.none) :=
  ⟨(claim_C6_tooltip_html _ (lit "B")).1 (lit "A") rfl,
   (claim_C6_tooltip_html _ (lit "B")).2.1 rfl⟩

/-! ## Pruning: `trim_empty` -/

theorem trimmed_trim_empty : ∀ l, trimmed (trim_empty l) = true
  | [] => by simp [trim_empty, trimmed]
  | TagTree.Tag tag ch :: rest => by
      have ih1 := trimmed_trim_empty ch
      have ih2 := trimmed_trim_empty rest
      simp only [trim_empty, TagTree.is_empty]
      split
      · exact ih2
      · next h => simp [trimmed, ih1, ih2, h]
  | TagTree.Text s :: rest => by
      have ih := trimmed_trim_empty rest
      simp only [trim_empty, TagTree.is_empty]
      split
      · exact ih
      · next h => simp [trimmed, ih, h]
termination_by l => sizeOf l

theorem trim_empty_of_trimmed : ∀ l, trimmed l = true → trim_empty l = l
  | [] => by simp [trim_empty]
  | TagTree.Tag tag ch :: rest => by
      intro h
      simp only [trimmed, Bool.and_eq_true] at h
      obtain ⟨⟨hne, hch⟩, htl⟩ := h
      have ihch := trim_empty_of_trimmed ch hch
      have ihtl := trim_empty_of_trimmed rest htl
      simp only [trim_empty, TagTree.is_empty, ihch, ihtl]
      simp at hne
      simp [hne]
  | TagTree.Text s :: rest => by
      intro h
      simp only [trimmed, Bool.and_eq_true] at h
      have ihtl := trim_empty_of_trimmed rest h.2
      have hne := h.1
      simp at hne
      simp [trim_empty, TagTree.is_empty, ihtl, hne]
termination_by l => sizeOf l

/-- Claim C7: one run of `trim_empty` leaves, at every depth, no `Tag` node
with an empty children vector and no zero-length `Text` leaf. -/
theorem claim_C7_trim_empty_trimmed (l : List TagTree) :
    trimmed (trim_empty l) = true :=
  trimmed_trim_empty l

/-! ## Merging: `merge_tooltips` -/

theorem anyTooltip_append : ∀ a b : List TagTree,
    anyTooltip (a ++ b) = (anyTooltip a || anyTooltip b)
  | [], b => by simp [anyTooltip]
  | TagTree.Tag (Tag.Tooltip s) ch :: rest, b => by simp [anyTooltip]
  | TagTree.Tag (Tag.SpanClass c) ch :: rest, b => by
      have ih := anyTooltip_append rest b
      simp [anyTooltip, ih, Bool.or_assoc]
  | TagTree.Text s :: rest, b => by
      have ih := anyTooltip_append rest b
      simp [anyTooltip, ih]

theorem goodT_append : ∀ a b : List TagTree,
    goodT (a ++ b) = (goodT a && goodT b)
  | [], b => by simp [goodT]
  | TagTree.Tag (Tag.Tooltip s) ch :: rest, b => by
      have ih := goodT_append rest b
      simp [goodT, ih, Bool.and_assoc]
  | TagTree.Tag (Tag.SpanClass c) ch :: rest, b => by
      have ih := goodT_append rest b
      simp [goodT, ih, Bool.and_assoc]
  | TagTree.Text s :: rest, b => by
      have ih := goodT_append rest b
      simp [goodT, ih]

theorem flattenF_append : ∀ a b : List TagTree,
    flattenF (a ++ b) = flattenF a ++ flattenF b
  | [], b => by simp [flattenF]
  | TagTree.Tag t ch :: rest, b => by
      have ih := flattenF_append rest b
      simp [flattenF, ih]
  | TagTree.Text s :: rest, b => by
      have ih := flattenF_append rest b
      simp [flattenF, ih]

theorem nlFree_append : ∀ a b : List TagTree,
    nlFree (a ++ b) = (nlFree a && nlFree b)
  | [], b => by simp [nlFree]
  | TagTree.Tag t ch :: rest, b => by
      have ih := nlFree_append rest b
      simp [nlFree, ih, Bool.and_assoc]
  | TagTree.Text s :: rest, b => by
      have ih := nlFree_append rest b
      simp [nlFree, ih, Bool.and_assoc]

/-- Unfolding `merge_tooltips` with no parent accumulator: it is exactly the
`VecGrowScan` loop. -/
theorem merge_tooltips_none (l : List TagTree) :
    merge_tooltips l none = ((merge_scan l).1, none, (merge_scan l).2) := by
  simp [merge_tooltips]

mutual

/-- On a tooltip-free forest, merging with a parent accumulator changes
nothing: the caption is untouched and no tooltip is reported. -/
theorem merge_tooltips_of_noTT : ∀ (l : List TagTree) (p : Str),
    anyTooltip l = false → merge_tooltips l (some p) = (l, some p, false)
  | [], p => by
      intro h
      simp [merge_tooltips, merge_scan]
  | [TagTree.Tag (Tag.SpanClass c) ch], p => by
      intro h
      simp only [anyTooltip, Bool.or_eq_false_iff] at h
      have ih := merge_tooltips_of_noTT ch p h.1
      simp [merge_tooltips, ih]
  | [TagTree.Tag (Tag.Tooltip s) ch], p => by
      intro h
      simp [anyTooltip] at h
  | [TagTree.Text s], p => by
      intro h
      simp [merge_tooltips]
  | t1 :: t2 :: ts, p => by
      intro h
      have ih := merge_scan_of_noTT (t1 :: t2 :: ts) h
      simp [merge_tooltips, ih]
termination_by l p => (sizeOf l, 1)

/-- On a tooltip-free forest, the scan loop changes nothing. -/
theorem merge_scan_of_noTT : ∀ l : List TagTree,
    anyTooltip l = false → merge_scan l = (l, false)
  | [] => by
      intro h
      simp [merge_scan]
  | TagTree.Text s :: rest => by
      intro h
      simp only [anyTooltip] at h
      have ih := merge_scan_of_noTT rest h
      simp [merge_scan, ih]
  | TagTree.Tag (Tag.SpanClass c) ch :: rest => by
      intro h
      simp only [anyTooltip, Bool.or_eq_false_iff] at h
      have ih1 := merge_scan_of_noTT ch h.1
      have ih2 := merge_scan_of_noTT rest h.2
      simp [merge_scan, merge_tooltips_none, ih1, ih2]
  | TagTree.Tag (Tag.Tooltip s) ch :: rest => by
      intro h
      simp [anyTooltip] at h
termination_by l => (sizeOf l, 0)

end

mutual

/-- The Boolean returned by `merge_tooltips` reports exactly whether the
merged subtree still contains a tooltip. -/
theorem merge_tooltips_bool : ∀ (l : List TagTree) (p : Str),
    (merge_tooltips l (some p)).2.2 = anyTooltip (merge_tooltips l (some p)).1
  | [], p => by simp [merge_tooltips, merge_scan, anyTooltip]
  | [TagTree.Tag (Tag.SpanClass c) ch], p => by
      have ih := merge_tooltips_bool ch p
      simp [merge_tooltips, anyTooltip, ih]
  | [TagTree.Tag (Tag.Tooltip s) ch], p => by
      have ih := merge_tooltips_bool ch (p ++ nlChar :: s)
      simp [merge_tooltips, ih]
  | [TagTree.Text s], p => by
      simp [merge_tooltips, anyTooltip]
  | t1 :: t2 :: ts, p => by
      have ih := merge_scan_bool (t1 :: t2 :: ts)
      simp [merge_tooltips, ih]
termination_by l p => (sizeOf l, 1)

/-- The Boolean returned by the scan loop reports exactly whether the merged
forest still contains a tooltip. -/
theorem merge_scan_bool : ∀ l : List TagTree,
    (merge_scan l).2 = anyTooltip (merge_scan l).1
  | [] => by simp [merge_scan, anyTooltip]
  | TagTree.Text s :: rest => by
      have ih := merge_scan_bool rest
      simp [merge_scan, anyTooltip, ih]
  | TagTree.Tag (Tag.SpanClass c) ch :: rest => by
      have ih1 := merge_scan_bool ch
      have ih2 := merge_scan_bool rest
      simp [merge_scan, merge_tooltips_none, anyTooltip, ih1, ih2]
  | TagTree.Tag (Tag.Tooltip s) ch :: rest => by
      have ih1 := merge_tooltips_bool ch s
      have ih2 := merge_scan_bool rest
      simp only [merge_scan]
      split
      · next h =>
          rw [ih1] at h
          simp [anyTooltip_append, h]
      · simp [anyTooltip]
termination_by l => (sizeOf l, 0)

end

mutual

/-- After merging with a parent accumulator, every surviving `Tooltip` node
has a tooltip-free subtree. -/
theorem goodT_merge_tooltips : ∀ (l : List TagTree) (p : Str),
    goodT (merge_tooltips l (some p)).1 = true
  | [], p => by simp [merge_tooltips, merge_scan, goodT]
  | [TagTree.Tag (Tag.SpanClass c) ch], p => by
      have ih := goodT_merge_tooltips ch p
      simp [merge_tooltips, goodT, ih]
  | [TagTree.Tag (Tag.Tooltip s) ch], p => by
      have ih := goodT_merge_tooltips ch (p ++ nlChar :: s)
      simp [merge_tooltips, ih]
  | [TagTree.Text s], p => by
      simp [merge_tooltips, goodT]
  | t1 :: t2 :: ts, p => by
      have ih := goodT_merge_scan (t1 :: t2 :: ts)
      simp [merge_tooltips, ih]
termination_by l p => (sizeOf l, 1)

/-- After the scan loop, every surviving `Tooltip` node has a tooltip-free
subtree. -/
theorem goodT_merge_scan : ∀ l : List TagTree,
    goodT (merge_scan l).1 = true
  | [] => by simp [merge_scan, goodT]
  | TagTree.Text s :: rest => by
      have ih := goodT_merge_scan rest
      simp [merge_scan, goodT, ih]
  | TagTree.Tag (Tag.SpanClass c) ch :: rest => by
      have ih1 := goodT_merge_scan ch
      have ih2 := goodT_merge_scan rest
      simp [merge_scan, merge_tooltips_none, goodT, ih1, ih2]
  | TagTree.Tag (Tag.Tooltip s) ch :: rest => by
      have ih1 := goodT_merge_tooltips ch s
      have ih2 := goodT_merge_scan rest
      simp only [merge_scan]
      split
      · next h => simp [goodT_append, ih1, ih2]
      · next h =>
          have hb := merge_tooltips_bool ch s
          rw [hb] at h
          simp at h
          simp [goodT, h, ih2]
termination_by l => (sizeOf l, 0)

end

/-- On a tooltip-canonical forest the scan loop is the identity. -/
theorem merge_scan_of_goodT : ∀ l : List TagTree,
    goodT l = true → merge_scan l = (l, anyTooltip l)
  | [] => by
      intro h
      simp [merge_scan, anyTooltip]
  | TagTree.Text s :: rest => by
      intro h
      simp only [goodT] at h
      have ih := merge_scan_of_goodT rest h
      simp [merge_scan, anyTooltip, ih]
  | TagTree.Tag (Tag.SpanClass c) ch :: rest => by
      intro h
      simp only [goodT, Bool.and_eq_true] at h
      have ih1 := merge_scan_of_goodT ch h.1
      have ih2 := merge_scan_of_goodT rest h.2
      simp [merge_scan, merge_tooltips_none, anyTooltip, ih1, ih2]
  | TagTree.Tag (Tag.Tooltip s) ch :: rest => by
      intro h
      simp only [goodT, Bool.and_eq_true] at h
      obtain ⟨hch, hrest⟩ := h
      simp at hch
      have hm := merge_tooltips_of_noTT ch s hch
      have ih := merge_scan_of_goodT rest hrest
      simp [merge_scan, hm, ih, anyTooltip]
termination_by l => sizeOf l

mutual

/-- Merging with a parent accumulator never changes the text content. -/
theorem flattenF_merge_tooltips : ∀ (l : List TagTree) (p : Str),
    flattenF (merge_tooltips l (some p)).1 = flattenF l
  | [], p => by simp [merge_tooltips, merge_scan]
  | [TagTree.Tag (Tag.SpanClass c) ch], p => by
      have ih := flattenF_merge_tooltips ch p
      simp [merge_tooltips, flattenF, ih]
  | [TagTree.Tag (Tag.Tooltip s) ch], p => by
      have ih := flattenF_merge_tooltips ch (p ++ nlChar :: s)
      simp [merge_tooltips, flattenF, ih]
  | [TagTree.Text s], p => by
      simp [merge_tooltips]
  | t1 :: t2 :: ts, p => by
      have ih := flattenF_merge_scan (t1 :: t2 :: ts)
      simp [merge_tooltips, ih]
termination_by l p => (sizeOf l, 1)

/-- The scan loop never changes the text content. -/
theorem flattenF_merge_scan : ∀ l : List TagTree,
    flattenF (merge_scan l).1 = flattenF l
  | [] => by simp [merge_scan]
  | TagTree.Text s :: rest => by
      have ih := flattenF_merge_scan rest
      simp [merge_scan, flattenF, ih]
  | TagTree.Tag (Tag.SpanClass c) ch :: rest => by
      have ih1 := flattenF_merge_scan ch
      have ih2 := flattenF_merge_scan rest
      simp [merge_scan, merge_tooltips_none, flattenF, ih1, ih2]
  | TagTree.Tag (Tag.Tooltip s) ch :: rest => by
      have ih1 := flattenF_merge_tooltips ch s
      have ih2 := flattenF_merge_scan rest
      simp only [merge_scan]
      split
      · next h => simp [flattenF_append, flattenF, ih1, ih2]
      · next h => simp [flattenF, ih1, ih2]
termination_by l => (sizeOf l, 0)

end

/-- Claim C9: `merge_tooltips` with no parent accumulator never changes the
text content of the tree: the concatenation of all `Text` leaves, in order,
is identical before and after merging. -/
theorem claim_C9_merge_preserves_text (l : List TagTree) :
    flattenF (merge_tooltips l none).1 = flattenF l := by
  rw [merge_tooltips_none]
  exact flattenF_merge_scan l

/-- Claim C8: `trim_empty` is idempotent, and `merge_tooltips` (with no
parent accumulator) is idempotent on a forest canonicalized by `trim_empty`
followed by `merge_tooltips`. -/
theorem claim_C8_idempotence (l : List TagTree) :
    trim_empty (trim_empty l) = trim_empty l ∧
    (merge_tooltips (merge_tooltips (trim_empty l) none).1 none).1
      = (merge_tooltips (trim_empty l) none).1 := by
  constructor
  · exact trim_empty_of_trimmed _ (trimmed_trim_empty l)
  · rw [merge_tooltips_none, merge_tooltips_none]
    rw [merge_scan_of_goodT _ (goodT_merge_scan (trim_empty l))]

/-- Claim C1 (counterexample): with `children` that themselves continue the
single-child tooltip chain, the inner caption is folded in as well, so the
result is not `Tooltip("A\nB", children)`. -/
theorem claim_C1_counterexample :
    (merge_tooltips
        [TagTree.Tag (Tag.Tooltip ['A'])
          [TagTree.Tag (Tag.Tooltip ['B'])
            [TagTree.Tag (Tag.Tooltip ['C']) [TagTree.Text ['x']]]]] none).1
      ≠ [TagTree.Tag (Tag.Tooltip ['A', '\n', 'B'])
          [TagTree.Tag (Tag.Tooltip ['C']) [TagTree.Text ['x']]]] := by
  have hev : (merge_tooltips
        [TagTree.Tag (Tag.Tooltip ['A'])
          [TagTree.Tag (Tag.Tooltip ['B'])
            [TagTree.Tag (Tag.Tooltip ['C']) [TagTree.Text ['x']]]]] none).1
      = [TagTree.Tag (Tag.Tooltip ['A', '\n', 'B', '\n', 'C'])
          [TagTree.Text ['x']]] := by
    rw [merge_tooltips_none]
    simp [merge_scan, merge_tooltips, nlChar]
  rw [hev]
  simp

/-- Claim C1 (amended): for tooltip-free `children`, merging
`Tooltip("A", [Tooltip("B", children)])` yields `Tooltip("A\nB", children)`,
and the same merge happens across an intervening lone `Styled` wrapper. -/
theorem claim_C1_innermost_wins (A B c : Str) (children : List TagTree)
    (h : anyTooltip children = false) :
    (merge_tooltips [TagTree.Tag (Tag.Tooltip A)
        [TagTree.Tag (Tag.Tooltip B) children]] none).1
      = [TagTree.Tag (Tag.Tooltip (A ++ nlChar :: B)) children] ∧
    (merge_tooltips [TagTree.Tag (Tag.Tooltip A)
        [TagTree.Tag (Tag.SpanClass c)
          [TagTree.Tag (Tag.Tooltip B) children]]] none).1
      = [TagTree.Tag (Tag.Tooltip (A ++ nlChar :: B))
          [TagTree.Tag (Tag.SpanClass c) children]] := by
  have hm := merge_tooltips_of_noTT children (A ++ nlChar :: B) h
  constructor
  · rw [merge_tooltips_none]
    simp [merge_scan, merge_tooltips, hm]
  · rw [merge_tooltips_none]
    simp [merge_scan, merge_tooltips, hm]

theorem claim_C1_witness :
    anyTooltip [TagTree.Text ['x']] = false ∧
    (merge_tooltips [TagTree.Tag (Tag.Tooltip ['A'])
        [TagTree.Tag (Tag.Tooltip ['B']) [TagTree.Text ['x']]]] none).1
      = [TagTree.Tag (Tag.Tooltip (['A'] ++ nlChar :: ['B']))
          [TagTree.Text ['x']]] :=
  ⟨by simp [anyTooltip],
   (claim_C1_innermost_wins ['A'] ['B'] ['c'] [TagTree.Text ['x']]
     (by simp [anyTooltip])).1⟩

/-- Claim C2 (counterexample): when `inner` contains a further single-child
tooltip chain, the inner tooltip's caption is extended by the merge, so it is
not kept unchanged. -/
theorem claim_C2_counterexample :
    (merge_tooltips
        [TagTree.Tag (Tag.Tooltip ['A'])
          [TagTree.Tag (Tag.SpanClass ['c'])
            [TagTree.Tag (Tag.Tooltip ['B'])
              [TagTree.Tag (Tag.Tooltip ['C']) [TagTree.Text ['x']]],
             TagTree.Text ['t']]]] none).1
      ≠ [TagTree.Tag (Tag.SpanClass ['c'])
          [TagTree.Tag (Tag.Tooltip ['B'])
            [TagTree.Tag (Tag.Tooltip ['C']) [TagTree.Text ['x']]],
           TagTree.Text ['t']]] := by
  have hev : (merge_tooltips
        [TagTree.Tag (Tag.Tooltip ['A'])
          [TagTree.Tag (Tag.SpanClass ['c'])
            [TagTree.Tag (Tag.Tooltip ['B'])
              [TagTree.Tag (Tag.Tooltip ['C']) [TagTree.Text ['x']]],
             TagTree.Text ['t']]]] none).1
      = [TagTree.Tag (Tag.SpanClass ['c'])
          [TagTree.Tag (Tag.Tooltip ['B', '\n', 'C']) [TagTree.Text ['x']],
           TagTree.Text ['t']]] := by
    rw [merge_tooltips_none]
    simp [merge_scan, merge_tooltips, nlChar]
  rw [hev]
  simp

/-- Claim C2 (amended): for tooltip-free `inner`, merging
`Tooltip("A", [Styled(c, [Tooltip("B", inner), Text(t)])])` keeps the inner
tooltip with its caption unchanged and replaces the outer tooltip by its
children, discarding the caption `"A"`. -/
theorem claim_C2_sibling_independence (A c B t : Str) (inner : List TagTree)
    (h : anyTooltip inner = false) :
    (merge_tooltips [TagTree.Tag (Tag.Tooltip A)
        [TagTree.Tag (Tag.SpanClass c)
          [TagTree.Tag (Tag.Tooltip B) inner, TagTree.Text t]]] none).1
      = [TagTree.Tag (Tag.SpanClass c)
          [TagTree.Tag (Tag.Tooltip B) inner, TagTree.Text t]] := by
  have hm := merge_tooltips_of_noTT inner B h
  rw [merge_tooltips_none]
  simp [merge_scan, merge_tooltips, hm]

theorem claim_C2_witness :
    anyTooltip [TagTree.Text ['x']] = false ∧
    (merge_tooltips [TagTree.Tag (Tag.Tooltip ['A'])
        [TagTree.Tag (Tag.SpanClass ['c'])
          [TagTree.Tag (Tag.Tooltip ['B']) [TagTree.Text ['x']],
           TagTree.Text ['t']]]] none).1
      = [TagTree.Tag (Tag.SpanClass ['c'])
          [TagTree.Tag (Tag.Tooltip ['B']) [TagTree.Text ['x']],
           TagTree.Text ['t']]] :=
  ⟨by simp [anyTooltip],
   claim_C2_sibling_independence ['A'] ['c'] ['B'] ['t'] [TagTree.Text ['x']]
     (by simp [anyTooltip])⟩

/-! ## Line splitting: `split_lines` -/

theorem splitOnChar_ne_nil (c : Char) : ∀ s, splitOnChar c s ≠ []
  | [] => by simp [splitOnChar]
  | a :: rest => by
      simp only [splitOnChar]
      split
      · simp
      · split
        · simp
        · simp

theorem interC_eq_intercalate {α : Type} (sep : List α) :
    ∀ xs : List (List α), interC sep xs = List.intercalate sep xs
  | [] => by simp [interC, List.intercalate]
  | [x] => by simp [interC, List.intercalate, List.intersperse_singleton]
  | x :: y :: xs => by
      have ih := interC_eq_intercalate sep (y :: xs)
      simp only [interC, ih, List.intercalate, List.intersperse_cons_cons,
        List.flatten_cons, List.append_assoc]

theorem interC_splitOnChar (c : Char) : ∀ s, interC [c] (splitOnChar c s) = s
  | [] => by simp [splitOnChar, interC]
  | a :: rest => by
      have ih := interC_splitOnChar c rest
      have hne := splitOnChar_ne_nil c rest
      simp only [splitOnChar]
      split
      · next h =>
          cases hS : splitOnChar c rest with
          | nil => exact absurd hS hne
          | cons l ls =>
              rw [hS] at ih
              simp [interC, ih, h]
      · next h =>
          cases hS : splitOnChar c rest with
          | nil => exact absurd hS hne
          | cons l ls =>
              rw [hS] at ih
              show interC [c] ((a :: l) :: ls) = a :: rest
              cases ls with
              | nil =>
                  simp only [interC] at ih ⊢
                  rw [ih]
              | cons l2 ls2 =>
                  simp only [interC, List.cons_append, List.append_assoc] at ih ⊢
                  rw [ih]

theorem splitOnChar_not_mem (c : Char) :
    ∀ s, ∀ piece ∈ splitOnChar c s, c ∉ piece
  | [] => by
      intro piece hp
      simp [splitOnChar] at hp
      simp [hp]
  | a :: rest => by
      intro piece hp
      have ih := splitOnChar_not_mem c rest
      have hne := splitOnChar_ne_nil c rest
      simp only [splitOnChar] at hp
      rcases hS : splitOnChar c rest with _ | ⟨l, ls⟩
      · exact absurd hS hne
      · rw [hS] at hp ih
        split at hp
        · rcases List.mem_cons.mp hp with h0 | h0
          · simp [h0]
          · exact ih piece h0
        · next h =>
            rcases List.mem_cons.mp hp with h0 | h0
            · subst h0
              have hl := ih l (List.mem_cons_self l ls)
              simp only [List.mem_cons]
              rintro (hca | hcl)
              · exact h hca.symm
              · exact hl hcl
            · exact ih piece (List.mem_cons_of_mem l h0)

theorem flattenF_cons (t : TagTree) (rest : List TagTree) :
    flattenF (t :: rest) = flatten1 t ++ flattenF rest := by
  cases t <;> simp [flattenF, flatten1]

theorem interC_append_last {α : Type} (sep : List α) :
    ∀ (xs : List (List α)) (y z : List α),
      interC sep (xs ++ [y ++ z]) = interC sep (xs ++ [y]) ++ z
  | [], y, z => by simp [interC]
  | [x], y, z => by simp [interC, List.append_assoc]
  | x :: x2 :: xs, y, z => by
      have ih := interC_append_last sep (x2 :: xs) y z
      simp only [List.cons_append, interC, List.append_assoc, List.append_eq] at ih ⊢
      rw [ih]

theorem interC_append_cons {α : Type} (sep : List α) :
    ∀ (xs : List (List α)) (y z : List α) (zs : List (List α)),
      interC sep (xs ++ y :: z :: zs)
        = interC sep (xs ++ [y]) ++ sep ++ interC sep (z :: zs)
  | [], y, z, zs => by simp [interC]
  | x :: xs, y, z, zs => by
      have ih := interC_append_cons sep xs y z zs
      cases xs with
      | nil => simp [interC, List.append_assoc]
      | cons x2 xs2 =>
          simp only [List.cons_append, interC, List.append_assoc, List.append_eq] at ih ⊢
          rw [ih]

theorem push_lines_flatten : ∀ (cls : List TagTree)
    (lines : List (List TagTree)) (nc : List TagTree), cls ≠ [] →
    interC [nlChar]
        (((push_lines (lines, nc) cls).1 ++ [(push_lines (lines, nc) cls).2]).map
          flattenF)
      = interC [nlChar] ((lines ++ [nc]).map flattenF)
          ++ interC [nlChar] (cls.map flatten1)
  | [], _, _ => by
      intro h
      exact absurd rfl h
  | [l], lines, nc => by
      intro h
      simp only [push_lines, List.map_append, List.map_cons, List.map_nil]
      rw [flattenF_append]
      have hl : flattenF [l] = flatten1 l := by
        rw [flattenF_cons]
        simp [flattenF]
      rw [hl, interC_append_last]
      simp [interC]
  | l1 :: l2 :: ls, lines, nc => by
      intro h
      have ih := push_lines_flatten (l2 :: ls) (lines ++ [nc ++ [l1]]) []
        (by simp)
      simp only [push_lines] at ih ⊢
      rw [ih]
      have h1 : ((lines ++ [nc ++ [l1]]) ++ [([] : List TagTree)]).map flattenF
          = lines.map flattenF ++ flattenF (nc ++ [l1]) :: flattenF [] :: [] := by
        simp
      rw [h1]
      rw [interC_append_cons]
      have h2 : flattenF (nc ++ [l1]) = flattenF nc ++ flatten1 l1 := by
        rw [flattenF_append, flattenF_cons]
        simp [flattenF]
      have h3 : lines.map flattenF ++ [flattenF (nc ++ [l1])]
          = lines.map flattenF ++ [flattenF nc ++ flatten1 l1] := by rw [h2]
      rw [h3, interC_append_last]
      have h4 : (lines ++ [nc]).map flattenF = lines.map flattenF ++ [flattenF nc] := by
        simp
      rw [h4]
      simp only [List.map_cons, interC, flattenF, List.append_assoc, List.append_nil]

theorem push_lines_nlFree : ∀ (cls : List TagTree)
    (lines : List (List TagTree)) (nc : List TagTree),
    (∀ line ∈ lines, nlFree line = true) → nlFree nc = true →
    (∀ u ∈ cls, nlFree [u] = true) →
    (∀ line ∈ (push_lines (lines, nc) cls).1, nlFree line = true)
      ∧ nlFree (push_lines (lines, nc) cls).2 = true
  | [], lines, nc => by
      intro h1 h2 h3
      exact ⟨h1, h2⟩
  | [l], lines, nc => by
      intro h1 h2 h3
      refine ⟨h1, ?_⟩
      simp only [push_lines]
      rw [nlFree_append]
      simp [h2, h3 l (by simp)]
  | l1 :: l2 :: ls, lines, nc => by
      intro h1 h2 h3
      simp only [push_lines]
      refine push_lines_nlFree (l2 :: ls) _ [] ?_ (by simp [nlFree]) ?_
      · intro line hline
        rcases List.mem_append.mp hline with h0 | h0
        · exact h1 line h0
        · simp at h0
          subst h0
          rw [nlFree_append]
          simp [h2, h3 l1 (by simp)]
      · intro u hu
        exact h3 u (by simp [hu])

mutual

/-- Per-node line-split fidelity: joining the per-line text with newlines
recovers the node's text, at least one line is produced, and every produced
line is newline-free. -/
theorem split_tree_spec : ∀ t : TagTree,
    interC [nlChar] ((TagTree.split_lines t).map flatten1) = flatten1 t
    ∧ TagTree.split_lines t ≠ []
    ∧ ∀ u ∈ TagTree.split_lines t, nlFree [u] = true
  | TagTree.Text s => by
      refine ⟨?_, ?_, ?_⟩
      · simp only [TagTree.split_lines, List.map_map]
        have : flatten1 ∘ TagTree.Text = id := by
          funext x
          simp [flatten1]
        rw [this, List.map_id]
        exact interC_splitOnChar nlChar s
      · simp only [TagTree.split_lines]
        simp [splitOnChar_ne_nil nlChar s]
      · intro u hu
        simp only [TagTree.split_lines, List.mem_map] at hu
        obtain ⟨piece, hpiece, rfl⟩ := hu
        have := splitOnChar_not_mem nlChar s piece hpiece
        simp [nlFree, List.contains, this]
  | TagTree.Tag tag ch => by
      have hgo := split_go_spec ch [] []
      refine ⟨?_, ?_, ?_⟩
      · simp only [TagTree.split_lines, split_lines, List.map_map]
        have : flatten1 ∘ (fun line => TagTree.Tag tag line) = flattenF := by
          funext x
          simp [flatten1]
        rw [this]
        have h0 := hgo.1
        simp only [List.nil_append, List.map_cons, List.map_nil, flattenF,
          interC] at h0
        simpa [flatten1] using h0
      · simp [TagTree.split_lines, split_lines]
      · intro u hu
        simp only [TagTree.split_lines, split_lines, List.mem_map] at hu
        obtain ⟨line, hline, rfl⟩ := hu
        have hnl : nlFree line = true := by
          have h2 := hgo.2 (by simp) (by simp [nlFree])
          rcases List.mem_append.mp hline with h0 | h0
          · exact h2.1 line h0
          · simp at h0
            subst h0
            exact h2.2
        simp [nlFree, hnl]
termination_by t => (sizeOf t, 0)

/-- Loop invariant of `split_lines`: the text of all completed lines plus the
partial line, joined with newlines, grows by exactly the text of the
processed forest, and newline-freeness of the state is preserved. -/
theorem split_go_spec : ∀ (l : List TagTree)
    (lines : List (List TagTree)) (nc : List TagTree),
    interC [nlChar]
        (((split_lines_go (lines, nc) l).1
            ++ [(split_lines_go (lines, nc) l).2]).map flattenF)
      = interC [nlChar] ((lines ++ [nc]).map flattenF) ++ flattenF l
    ∧ ((∀ line ∈ lines, nlFree line = true) → nlFree nc = true →
        (∀ line ∈ (split_lines_go (lines, nc) l).1, nlFree line = true)
          ∧ nlFree (split_lines_go (lines, nc) l).2 = true)
  | [], lines, nc => by
      constructor
      · simp [split_lines_go, flattenF]
      · intro h1 h2
        simp only [split_lines_go]
        exact ⟨h1, h2⟩
  | child :: rest, lines, nc => by
      have ht := split_tree_spec child
      have ihrest := split_go_spec rest (push_lines (lines, nc) child.split_lines).1
        (push_lines (lines, nc) child.split_lines).2
      constructor
      · simp only [split_lines_go]
        have heq : (push_lines (lines, nc) child.split_lines) =
            ((push_lines (lines, nc) child.split_lines).1,
             (push_lines (lines, nc) child.split_lines).2) := rfl
        rw [heq, ihrest.1]
        rw [push_lines_flatten child.split_lines lines nc ht.2.1]
        rw [ht.1, flattenF_cons]
        simp [List.append_assoc]
      · intro h1 h2
        simp only [split_lines_go]
        have heq : (push_lines (lines, nc) child.split_lines) =
            ((push_lines (lines, nc) child.split_lines).1,
             (push_lines (lines, nc) child.split_lines).2) := rfl
        rw [heq]
        have hpl := push_lines_nlFree child.split_lines lines nc h1 h2 ht.2.2
        exact ihrest.2 hpl.1 hpl.2
termination_by l lines nc => (sizeOf l, 1)

end

/-- Claim C4: line splitting loses, duplicates and reorders nothing — the
flattened text of the produced per-line forests, joined with newlines, is
the flattened text of the input forest — and no produced line's `Text` leaf
contains a newline. -/
theorem claim_C4_split_lines_fidelity (l : List TagTree) :
    List.intercalate [nlChar] ((split_lines l).map flattenF) = flattenF l
    ∧ (split_lines l).all (fun line => nlFree line) = true := by
  have hgo := split_go_spec l [] []
  constructor
  · rw [← interC_eq_intercalate]
    have h0 := hgo.1
    simp only [List.nil_append, List.map_cons, List.map_nil, flattenF,
      interC] at h0
    simpa [split_lines] using h0
  · rw [List.all_eq_true]
    intro line hline
    have h2 := hgo.2 (by simp) (by simp [nlFree])
    simp only [split_lines] at hline
    rcases List.mem_append.mp hline with h0 | h0
    · simp [h2.1 line h0]
    · simp at h0
      subst h0
      simp [h2.2]

/-! ## Claim about the YXML parser -/

/-- Claim C5: `parse` is total — it returns either a parsed forest or a
terminal error drawn from exactly the six malformation variants, never a
partial result — and each variant is produced by its matching malformation
(witnessed here on the repository's own test inputs): an unclosed tag at end
of input, a marker missing its terminating delimiter, non-empty content
before the name/attributes, a marker with no name, an attribute with no `=`,
and a close marker with no open tag at top level; a well-formed input parses
to `ok` with the full forest. -/
theorem claim_C5_parse_errors :
    (∀ input : Str,
      (∃ nodes, parse input = Except.ok nodes) ∨
      (∃ e, parse input = Except.error e ∧
        ((∃ t, e = ParseError.UnclosedTag t) ∨ e = ParseError.NoClosingX ∨
         e = ParseError.UnexpectedContentBeforeAttributes ∨
         e = ParseError.MissingName ∨ e = ParseError.MalformedAttribute ∨
         e = ParseError.UnmatchedClosingTag))) ∧
    parse ['\x05', '\x06', 't', 'a', 'g', '\x05', 'h', 'i', '\x05', '\x06', '\x05']
      = Except.ok [Node.Tag ['t', 'a', 'g'] [] [Node.Text ['h', 'i']]] ∧
    parse ['\x05', '\x06', 't', 'a', 'g', '\x05', 'h', 'i']
      = Except.error (ParseError.UnclosedTag ['t', 'a', 'g']) ∧
    parse ['\x05', '\x06', 't', 'a', 'g']
      = Except.error ParseError.NoClosingX ∧
    parse ['\x05', 'x', 'x', 'x', '\x06', 't', 'a', 'g', '\x05', 'h', 'i',
           '\x05', '\x06', '\x05']
      = Except.error ParseError.UnexpectedContentBeforeAttributes ∧
    parse ['\x05', '\x05', 'h', 'i', '\x05', '\x06', '\x05']
      = Except.error ParseError.MissingName ∧
    parse ['\x05', '\x06', 't', 'a', 'g', '\x06', 'b', 'a', 'd', '\x05', 'h',
           'i', '\x05', '\x06', '\x05']
      = Except.error ParseError.MalformedAttribute ∧
    parse ['\x05', '\x06', 't', 'a', 'g', '\x05', 'h', 'i', '\x05', '\x06',
           '\x05', '\x05', '\x06', '\x05']
      = Except.error ParseError.UnmatchedClosingTag := by
  refine ⟨?_, ?_, ?_, ?_, ?_, ?_, ?_, ?_⟩
  · intro input
    cases h : parse input with
    | ok nodes => exact Or.inl ⟨nodes, rfl⟩
    | error e =>
        refine Or.inr ⟨e, rfl, ?_⟩
        cases e <;> simp
  all_goals
    simp [parse, from_str, parse_children, parse_attrs, findChar, splitOnChar,
      X, Y]
